import Mathlib

set_option maxHeartbeats 1000000

/-
Verification development for the variant annotation aggregator of
workflow/scripts/generate-overview-table.py.

The aggregator consumes, per sample, a list of variant-call records, each
carrying an allele frequency (VAF) and a list of pipe-split annotations
(feature = field 3, transcript id = field 6, HGVS protein string = field 11).
It classifies each protein alteration into one of three tiers against two
reference mappings (flirt, mth), deduplicates by keeping the maximal VAF per
label, and renders one sorted summary string per tier, with a 32767-character
overflow guard on the "Other Mutations" column.

VAF values are modelled as rationals; the source manipulates Python floats,
which it only compares and formats with three decimal places.
-/

/-- One entry of record.info of the source, already split at the pipe
characters: field 3 (feature), field 6 (transcript id), field 11 (raw HGVS
protein string). -/
structure Ann where
  feature : String
  enssastId : String
  hgvsp : String
  deriving DecidableEq

/-- One variant-call record: the allele frequency taken from the first
sample's AF field, and the attached effect entries. -/
structure VarRecord where
  vaf : ℚ
  anns : List Ann
  deriving DecidableEq

/-- A reference mapping, feature to set of alteration strings, modelling the
Python dicts snakemake.params.flirt and snakemake.params.mth.  Python dicts
are insertion ordered, hence the association-list model. -/
abbrev RefMap := List (String × List String)

/-- Python dict.get(k, default with empty set): first matching key wins,
missing key yields the empty set. -/
def getD (m : RefMap) (k : String) : List String :=
  match m.find? (fun p => p.1 == k) with
  | some p => p.2
  | none => []

/-- Helper for Python s.split(sep, 1) on character lists: split at the first
occurrence of the separator; none when the separator does not occur (in which
case the Python two-name unpacking raises ValueError). -/
def splitOnce (sep : Char) : List Char → Option (List Char × List Char)
  | [] => none
  | c :: cs =>
    if c = sep then some ([], cs)
    else
      match splitOnce sep cs with
      | some (a, b) => some (c :: a, b)
      | none => none

/-- Python s.split(sep, 1) unpacked into two names, on strings. -/
def splitFirst (sep : Char) (s : String) : Option (String × String) :=
  match splitOnce sep s.data with
  | some (a, b) => some (String.mk a, String.mk b)
  | none => none

/-- The translation table of the source, in dictionary (insertion) order. -/
def AA_ALPHABET_TRANSLATION : List (String × String) :=
  [("Gly", "G"), ("Ala", "A"), ("Leu", "L"), ("Met", "M"), ("Phe", "F"),
   ("Trp", "W"), ("Lys", "K"), ("Gln", "Q"), ("Glu", "E"), ("Ser", "S"),
   ("Pro", "P"), ("Val", "V"), ("Ile", "I"), ("Cys", "C"), ("Tyr", "Y"),
   ("His", "H"), ("Arg", "R"), ("Asn", "N"), ("Asp", "D"), ("Thr", "T")]

/-- Python str.replace specialised to a three-character pattern and a
one-character replacement, the shape of every entry of the translation table:
replace every occurrence, scanning left to right, non-overlapping.  The fuel
argument makes the recursion structural; one unit is spent per examined
position, so fuel equal to the input length never runs out. -/
def replace3Fuel (p1 p2 p3 r : Char) : ℕ → List Char → List Char
  | 0, s => s
  | _, [] => []
  | fuel + 1, c1 :: tail =>
    match tail with
    | c2 :: c3 :: rest =>
      if c1 = p1 ∧ c2 = p2 ∧ c3 = p3 then r :: replace3Fuel p1 p2 p3 r fuel rest
      else c1 :: replace3Fuel p1 p2 p3 r fuel tail
    | _ => c1 :: tail

/-- Python str.replace for a three-character pattern and a one-character
replacement. -/
def replace3 (p1 p2 p3 r : Char) (s : List Char) : List Char :=
  replace3Fuel p1 p2 p3 r s.length s

/-- The translation loop of the source: for each (triplet, amino) of the
table, in order, alteration = alteration.replace(triplet, amino).  Every
table entry is a three-letter code with a one-letter replacement. -/
def translateAA (s : String) : String :=
  AA_ALPHABET_TRANSLATION.foldl
    (fun alteration p =>
      match p.1.data, p.2.data with
      | [p1, p2, p3], [r] => String.mk (replace3 p1 p2 p3 r alteration.data)
      | _, _ => alteration) s

/-- The three destinations of the if / elif / else dispatch. -/
inductive Tier
  | flirt
  | mth
  | other
  deriving DecidableEq

/-- The dispatch condition of the source, as a function of the reference
mappings, the feature and the alteration string the membership test receives. -/
def classifyTier (flirt mth : RefMap) (feature alteration : String) : Tier :=
  if (getD flirt feature).contains alteration then Tier.flirt
  else if (getD mth feature).contains alteration then Tier.mth
  else Tier.other

/-- Python variants.get(hgvsp) on the insertion-ordered dict model. -/
def lookupVaf : List (String × ℚ) → String → Option ℚ
  | [], _ => none
  | p :: rest, k => if p.1 = k then some p.2 else lookupVaf rest k

/-- Python variants[hgvsp] = vaf on the insertion-ordered dict model: an
existing key keeps its position, a new key is appended. -/
def setVaf : List (String × ℚ) → String → ℚ → List (String × ℚ)
  | [], k, v => [(k, v)]
  | p :: rest, k, v => if p.1 = k then (k, v) :: rest else p :: setVaf rest k v

/-- insert_entry of the source: write the entry only if the key is absent or
the previous VAF is strictly smaller. -/
def insert_entry (variants : List (String × ℚ)) (hgvsp : String) (vaf : ℚ) :
    List (String × ℚ) :=
  match lookupVaf variants hgvsp with
  | none => setVaf variants hgvsp vaf
  | some prev => if prev < vaf then setVaf variants hgvsp vaf else variants

/-- The per-sample accumulator: the three tier dicts of the source. -/
structure TierMaps where
  flirt_mutations : List (String × ℚ)
  mutations_of_interest : List (String × ℚ)
  other_mutations : List (String × ℚ)
  deriving DecidableEq

/-- The three dicts start empty for every sample. -/
def initialTiers : TierMaps := ⟨[], [], []⟩

/-- The body of the annotation loop of the source, for one annotation of a
record with allele frequency vaf.  An empty HGVS string is skipped; a missing
separator makes the two-name unpacking of split raise, modelled as an error;
otherwise the alteration is translated, the label built, and the entry
inserted into the tier selected by the if / elif / else dispatch. -/
def processAnn (flirt mth : RefMap) (vaf : ℚ) (st : TierMaps) (a : Ann) :
    Except String TierMaps :=
  if a.hgvsp = "" then Except.ok st
  else
    match splitFirst ':' a.hgvsp with
    | none => Except.error a.hgvsp
    | some (_enssastId, rest1) =>
      match splitFirst '.' rest1 with
      | none => Except.error a.hgvsp
      | some (_pfx, rawAlteration) =>
        let alteration := translateAA rawAlteration
        let hgvspLabel := a.feature ++ ":" ++ alteration
        if (getD flirt a.feature).contains alteration then
          Except.ok ⟨insert_entry st.flirt_mutations hgvspLabel vaf,
                     st.mutations_of_interest, st.other_mutations⟩
        else if (getD mth a.feature).contains alteration then
          Except.ok ⟨st.flirt_mutations,
                     insert_entry st.mutations_of_interest hgvspLabel vaf,
                     st.other_mutations⟩
        else
          Except.ok ⟨st.flirt_mutations, st.mutations_of_interest,
                     insert_entry st.other_mutations hgvspLabel vaf⟩

/-- The inner loop over the annotations of one record; a raised parse error
aborts the sample. -/
def processAnns (flirt mth : RefMap) (vaf : ℚ) :
    TierMaps → List Ann → Except String TierMaps
  | st, [] => Except.ok st
  | st, a :: rest =>
    match processAnn flirt mth vaf st a with
    | Except.ok st1 => processAnns flirt mth vaf st1 rest
    | Except.error e => Except.error e

/-- The record loop of one sample from a given accumulator state. -/
def processRecsFrom (flirt mth : RefMap) :
    TierMaps → List VarRecord → Except String TierMaps
  | st, [] => Except.ok st
  | st, r :: rest =>
    match processAnns flirt mth r.vaf st r.anns with
    | Except.ok st1 => processRecsFrom flirt mth st1 rest
    | Except.error e => Except.error e

/-- The record loop of one sample: both loops, starting from empty dicts. -/
def processRecs (flirt mth : RefMap) (recs : List VarRecord) :
    Except String TierMaps :=
  processRecsFrom flirt mth initialTiers recs

/-- Strict lexicographic comparison of character lists by code point, the
order Python uses on str. -/
def lexLtB : List Char → List Char → Bool
  | _, [] => false
  | [], _ :: _ => true
  | a :: as, b :: bs =>
    if a.toNat < b.toNat then true
    else if b.toNat < a.toNat then false
    else lexLtB as bs

/-- Strict lexicographic comparison of strings by code point. -/
def strLtB (a b : String) : Bool := lexLtB a.data b.data

/-- Insert a string into an already sorted list, before the first element
that is not strictly below it. -/
def insertSorted (x : String) : List String → List String
  | [] => [x]
  | y :: ys => if strLtB y x then y :: insertSorted x ys else x :: y :: ys

/-- Python sorted on a list of strings: the sorted permutation for the code
point lexicographic order. -/
def sortStrings : List String → List String
  | [] => []
  | x :: xs => insertSorted x (sortStrings xs)

/-- Zero-padding of the fractional part to three digits. -/
def pad3 (n : ℕ) : String :=
  if n < 10 then "00" ++ toString n
  else if n < 100 then "0" ++ toString n
  else toString n

/-- Round to the nearest integer, ties to even, the rounding Python's .3f
float formatting performs on its decimal digits. -/
def roundHalfEven (x : ℚ) : ℤ :=
  if x - (Int.fdiv x.num (x.den : ℤ) : ℚ) < 1 / 2 then Int.fdiv x.num (x.den : ℤ)
  else if (1 : ℚ) / 2 < x - (Int.fdiv x.num (x.den : ℤ) : ℚ) then
    Int.fdiv x.num (x.den : ℤ) + 1
  else if Int.fdiv x.num (x.den : ℤ) % 2 = 0 then Int.fdiv x.num (x.den : ℤ)
  else Int.fdiv x.num (x.den : ℤ) + 1

/-- Python f-string formatting of a VAF with exactly three decimal places.
The VAFs of the source lie in the interval from 0 to 1. -/
def fmt3 (q : ℚ) : String :=
  toString ((roundHalfEven (q * 1000)).toNat / 1000) ++ "." ++
    pad3 ((roundHalfEven (q * 1000)).toNat % 1000)

/-- One rendered summary entry, label colon three-decimal VAF. -/
def renderEntry (p : String × ℚ) : String := p.1 ++ ":" ++ fmt3 p.2

/-- fmt_variants of the source: render every dict entry, sort the rendered
strings, join with single spaces. -/
def fmt_variants (variants : List (String × ℚ)) : String :=
  String.intercalate " " (sortStrings (variants.map renderEntry))

/-- The guard applied to the "Other Mutations" column of the output table. -/
def overflowGuard (s : String) : String :=
  if 32767 < s.length then "Too many variants to display" else s

/-- The three summary strings one sample contributes to the output table:
FLiRT Mutations, VOC Mutations, Other Mutations, the last one behind the
overflow guard. -/
def processSample (flirt mth : RefMap) (recs : List VarRecord) :
    Except String (String × String × String) :=
  (processRecs flirt mth recs).map fun st =>
    (fmt_variants st.flirt_mutations,
     fmt_variants st.mutations_of_interest,
     overflowGuard (fmt_variants st.other_mutations))

/-- The alteration suffix the loop body extracts from a raw HGVS string
before translation: the text after the first dot after the first colon.
Derived from the two splits of processAnn, for stating theorems. -/
def parseAlt (hgvsp : String) : Option String :=
  match splitFirst ':' hgvsp with
  | none => none
  | some (_, rest1) =>
    match splitFirst '.' rest1 with
    | none => none
    | some (_, alt) => some alt

/-- Insert one entry into the tier map selected by a tier value; restates the
three branches of processAnn for theorem statements. -/
def applyTier (st : TierMaps) (t : Tier) (lbl : String) (vaf : ℚ) : TierMaps :=
  match t with
  | Tier.flirt => ⟨insert_entry st.flirt_mutations lbl vaf,
                   st.mutations_of_interest, st.other_mutations⟩
  | Tier.mth => ⟨st.flirt_mutations,
                 insert_entry st.mutations_of_interest lbl vaf,
                 st.other_mutations⟩
  | Tier.other => ⟨st.flirt_mutations, st.mutations_of_interest,
                   insert_entry st.other_mutations lbl vaf⟩

/-- The labels present in a tier map. -/
def keysOf (m : List (String × ℚ)) : List String := m.map Prod.fst

/-- Maximum of a list of VAFs, none for the empty list. -/
def maxVaf : List ℚ → Option ℚ
  | [] => none
  | v :: vs => some (vs.foldl max v)

/-- Combine an optional previous maximum with an optional new maximum. -/
def optMax : Option ℚ → Option ℚ → Option ℚ
  | none, b => b
  | some a, none => some a
  | some a, some b => some (max a b)

/-- A sequence of insert_entry calls against one tier map, in order. -/
def foldInserts (entries : List (String × ℚ)) (m : List (String × ℚ)) :
    List (String × ℚ) :=
  entries.foldl (fun acc p => insert_entry acc p.1 p.2) m

/-- First lookup of tripletHit: the one-letter replacement the table assigns
to a three-character window, if any. -/
def tripletHit (c1 c2 c3 : Char) : List (String × String) → Option Char
  | [] => none
  | p :: rest =>
    match p.1.data, p.2.data with
    | [q1, q2, q3], [r] =>
      if c1 = q1 ∧ c2 = q2 ∧ c3 = q3 then some r else tripletHit c1 c2 c3 rest
    | _, _ => tripletHit c1 c2 c3 rest

/-- One simultaneous left-to-right pass replacing every occurrence of every
code of the table and copying all other characters unchanged: the reading of
the translator that claim C6 describes.  Fuel as in replace3Fuel. -/
def simReplaceFuel (table : List (String × String)) : ℕ → List Char → List Char
  | 0, s => s
  | _, [] => []
  | fuel + 1, c1 :: tail =>
    match tail with
    | c2 :: c3 :: rest =>
      match tripletHit c1 c2 c3 table with
      | some r => r :: simReplaceFuel table fuel rest
      | none => c1 :: simReplaceFuel table fuel tail
    | _ => c1 :: tail

/-- The translator as claim C6 words it: every occurrence of every
three-letter code replaced by its one-letter equivalent, all other characters
left unchanged. -/
def claimTranslateAA (s : String) : String :=
  String.mk (simReplaceFuel AA_ALPHABET_TRANSLATION s.data.length s.data)

/-- Insertion before the first entry whose label is not strictly below,
for the by-label sort of claim C2. -/
def insertByLabel (x : String × ℚ) : List (String × ℚ) → List (String × ℚ)
  | [] => [x]
  | y :: ys => if strLtB y.1 x.1 then y :: insertByLabel x ys else x :: y :: ys

/-- Sort of the entries by label alone. -/
def sortByLabel : List (String × ℚ) → List (String × ℚ)
  | [] => []
  | x :: xs => insertByLabel x (sortByLabel xs)

/-- The formatter as claim C2 words it: entries sorted lexicographically by
label, each rendered as label colon three-decimal VAF, joined by spaces. -/
def fmt_variants_byLabel (variants : List (String × ℚ)) : String :=
  String.intercalate " " ((sortByLabel variants).map renderEntry)

/-- Two annotations that agree on every pipe field the loop consumes and may
differ in field 6, the transcript identifier. -/
def sameExceptField6 (a b : Ann) : Prop :=
  a.feature = b.feature ∧ a.hgvsp = b.hgvsp

/-- Record-level lift of sameExceptField6. -/
def sameRecExceptField6 (r1 r2 : VarRecord) : Prop :=
  r1.vaf = r2.vaf ∧ List.Forall₂ sameExceptField6 r1.anns r2.anns

/-- The tier a label would be classified into when read back as
feature colon alteration, splitting at the first colon; none when the label
has no colon.  Used to state which tier map a label may inhabit. -/
def tierOfLabel (flirt mth : RefMap) (L : String) : Option Tier :=
  match splitFirst ':' L with
  | none => none
  | some (f, r) => some (classifyTier flirt mth f r)

/-- Every label of each tier map reads back to that map's tier. -/
def TiersConsistent (flirt mth : RefMap) (st : TierMaps) : Prop :=
  (∀ L ∈ keysOf st.flirt_mutations, tierOfLabel flirt mth L = some Tier.flirt) ∧
  (∀ L ∈ keysOf st.mutations_of_interest, tierOfLabel flirt mth L = some Tier.mth) ∧
  (∀ L ∈ keysOf st.other_mutations, tierOfLabel flirt mth L = some Tier.other)

/- ------------------------------------------------------------------ -/
/- Lemmas about the insertion-ordered dict model.                      -/
/- ------------------------------------------------------------------ -/

theorem lookupVaf_setVaf_same (m : List (String × ℚ)) (k : String) (v : ℚ) :
    lookupVaf (setVaf m k v) k = some v := by
  induction m with
  | nil => simp [setVaf, lookupVaf]
  | cons p rest ih =>
    by_cases h : p.1 = k
    · simp [setVaf, h, lookupVaf]
    · simp [setVaf, h, lookupVaf, ih]

theorem lookupVaf_setVaf_other (m : List (String × ℚ)) (k k' : String) (v : ℚ)
    (h : k' ≠ k) : lookupVaf (setVaf m k v) k' = lookupVaf m k' := by
  induction m with
  | nil => simp [setVaf, lookupVaf, Ne.symm h]
  | cons p rest ih =>
    by_cases hp : p.1 = k
    · simp [setVaf, hp, lookupVaf, Ne.symm h]
    · simp [setVaf, hp, lookupVaf, ih]

theorem lookupVaf_insert_same (m : List (String × ℚ)) (k : String) (v : ℚ) :
    lookupVaf (insert_entry m k v) k = optMax (lookupVaf m k) (some v) := by
  unfold insert_entry
  cases h : lookupVaf m k with
  | none => simp [lookupVaf_setVaf_same, optMax]
  | some prev =>
    by_cases hlt : prev < v
    · simp [hlt, lookupVaf_setVaf_same, optMax, max_eq_right (le_of_lt hlt)]
    · simp [hlt, optMax, h, max_eq_left (not_lt.mp hlt)]

theorem lookupVaf_insert_other (m : List (String × ℚ)) (k k' : String) (v : ℚ)
    (h : k' ≠ k) : lookupVaf (insert_entry m k v) k' = lookupVaf m k' := by
  unfold insert_entry
  cases hm : lookupVaf m k with
  | none => simp [lookupVaf_setVaf_other m k k' v h]
  | some prev =>
    by_cases hlt : prev < v <;> simp [hlt, lookupVaf_setVaf_other m k k' v h]

theorem optMax_none_right (a : Option ℚ) : optMax a none = a := by
  cases a <;> rfl

theorem optMax_assoc (a b c : Option ℚ) :
    optMax (optMax a b) c = optMax a (optMax b c) := by
  cases a <;> cases b <;> cases c <;> simp [optMax, max_assoc]

theorem maxVaf_cons (v : ℚ) (vs : List ℚ) :
    maxVaf (v :: vs) = optMax (some v) (maxVaf vs) := by
  cases vs with
  | nil => simp [maxVaf, optMax]
  | cons w ws =>
    simp only [maxVaf, optMax, List.foldl_cons, Option.some.injEq]
    exact List.foldl_assoc

theorem lookupVaf_foldInserts (entries : List (String × ℚ))
    (m : List (String × ℚ)) (L : String) :
    lookupVaf (foldInserts entries m) L =
      optMax (lookupVaf m L)
        (maxVaf ((entries.filter fun p => p.1 == L).map Prod.snd)) := by
  induction entries generalizing m with
  | nil => simp [foldInserts, maxVaf, optMax_none_right]
  | cons p rest ih =>
    simp only [foldInserts, List.foldl_cons] at ih ⊢
    rw [ih]
    by_cases hp : p.1 = L
    · subst hp
      simp only [List.filter_cons, beq_self_eq_true, if_pos, List.map_cons,
        maxVaf_cons, lookupVaf_insert_same]
      rw [optMax_assoc]
    · have hL : L ≠ p.1 := fun he => hp he.symm
      simp [List.filter_cons, hp, lookupVaf_insert_other m p.1 L p.2 hL]

/- ------------------------------------------------------------------ -/
/- Lemmas about the lexicographic order and the sort.                  -/
/- ------------------------------------------------------------------ -/

theorem lexLtB_asymm : ∀ a b : List Char, lexLtB a b = true → lexLtB b a = false
  | _, [] => by simp [lexLtB]
  | [], _ :: _ => by simp [lexLtB]
  | a :: as, b :: bs => by
    by_cases h1 : a.toNat < b.toNat <;> by_cases h2 : b.toNat < a.toNat <;>
      simp [lexLtB, h1, h2]
    · omega
    · exact lexLtB_asymm as bs

theorem lexLtB_false_trans :
    ∀ a b c : List Char, lexLtB b a = false → lexLtB c b = false →
      lexLtB c a = false
  | [], b, c => by
    intro h1 h2
    cases c <;> simp [lexLtB]
  | _ :: _, [], _ => by
    intro h1 h2
    simp [lexLtB] at h1
  | _ :: _, _ :: _, [] => by
    intro h1 h2
    simp [lexLtB] at h2
  | a :: as, b :: bs, c :: cs => by
    intro h1 h2
    simp only [lexLtB] at h1 h2 ⊢
    by_cases hba : b.toNat < a.toNat
    · simp [hba] at h1
    · by_cases hcb : c.toNat < b.toNat
      · simp [hcb] at h2
      · have hab : a.toNat ≤ b.toNat := Nat.le_of_not_lt hba
        have hbc : b.toNat ≤ c.toNat := Nat.le_of_not_lt hcb
        have hca : ¬ c.toNat < a.toNat := by omega
        by_cases hac : a.toNat < c.toNat
        · simp [hca, hac]
        · have hab2 : ¬ a.toNat < b.toNat := by omega
          have hbc2 : ¬ b.toNat < c.toNat := by omega
          simp only [hba, hab2, if_false] at h1
          simp only [hcb, hbc2, if_false] at h2
          simp only [hca, hac, if_false]
          exact lexLtB_false_trans as bs cs h1 h2

theorem insertSorted_perm (x : String) (l : List String) :
    List.Perm (insertSorted x l) (x :: l) := by
  induction l with
  | nil => simp [insertSorted]
  | cons y ys ih =>
    by_cases h : strLtB y x
    · simp only [insertSorted, h, if_true]
      exact ((ih.cons y).trans (List.Perm.swap x y ys))
    · simp [insertSorted, h]

theorem sortStrings_perm (l : List String) :
    List.Perm (sortStrings l) l := by
  induction l with
  | nil => simp [sortStrings]
  | cons x xs ih =>
    exact (insertSorted_perm x (sortStrings xs)).trans (ih.cons x)

theorem sorted_insertSorted (x : String) (l : List String)
    (h : List.Sorted (fun u v => strLtB v u = false) l) :
    List.Sorted (fun u v => strLtB v u = false) (insertSorted x l) := by
  induction l with
  | nil => simp [insertSorted]
  | cons y ys ih =>
    rcases List.sorted_cons.mp h with ⟨hy, hys⟩
    by_cases hyx : strLtB y x
    · simp only [insertSorted, hyx, if_true]
      refine List.sorted_cons.mpr ⟨?_, ih hys⟩
      intro z hz
      rcases List.mem_cons.mp ((insertSorted_perm x ys).mem_iff.mp hz) with hzx | hzy
      · subst hzx
        exact lexLtB_asymm y.data z.data hyx
      · exact hy z hzy
    · simp only [insertSorted, hyx, if_false]
      refine List.sorted_cons.mpr ⟨?_, h⟩
      intro z hz
      have hxy : strLtB y x = false := Bool.eq_false_iff.mpr hyx
      rcases List.mem_cons.mp hz with hzy | hzz
      · subst hzy
        exact hxy
      · exact lexLtB_false_trans x.data y.data z.data hxy (hy z hzz)

theorem sorted_sortStrings (l : List String) :
    List.Sorted (fun u v => strLtB v u = false) (sortStrings l) := by
  induction l with
  | nil => simp [sortStrings]
  | cons x xs ih => exact sorted_insertSorted x (sortStrings xs) ih

/- ------------------------------------------------------------------ -/
/- Evaluation lemmas for the three-decimal formatter.                  -/
/- ------------------------------------------------------------------ -/

theorem roundHalfEven_intCast (n : ℤ) : roundHalfEven ((n : ℚ)) = n := by
  unfold roundHalfEven
  rw [Rat.num_intCast, Rat.den_intCast]
  norm_num

theorem fmt3_eq_of_natCast (q : ℚ) (n : ℕ) (h : q * 1000 = (n : ℚ)) :
    fmt3 q = toString (n / 1000) ++ "." ++ pad3 (n % 1000) := by
  unfold fmt3
  rw [h, show ((n : ℚ)) = (((n : ℤ) : ℚ)) by push_cast; ring,
    roundHalfEven_intCast, Int.toNat_natCast]

theorem fmt3_half : fmt3 ((1 : ℚ) / 2) = "0.500" := by
  rw [fmt3_eq_of_natCast ((1 : ℚ) / 2) 500 (by norm_num)]
  rfl

theorem fmt3_quarter : fmt3 ((1 : ℚ) / 4) = "0.250" := by
  rw [fmt3_eq_of_natCast ((1 : ℚ) / 4) 250 (by norm_num)]
  rfl

/- ------------------------------------------------------------------ -/
/- Lemmas about the processing loops.                                  -/
/- ------------------------------------------------------------------ -/

theorem processAnns_append (flirt mth : RefMap) (vaf : ℚ) (st : TierMaps)
    (l1 l2 : List Ann) :
    processAnns flirt mth vaf st (l1 ++ l2) =
      match processAnns flirt mth vaf st l1 with
      | Except.ok st1 => processAnns flirt mth vaf st1 l2
      | Except.error e => Except.error e := by
  induction l1 generalizing st with
  | nil => simp [processAnns]
  | cons a l ih =>
    simp only [List.cons_append, processAnns]
    cases processAnn flirt mth vaf st a with
    | ok st1 => exact ih st1
    | error e => rfl

theorem processAnn_ok_char (flirt mth : RefMap) (vaf : ℚ) (st : TierMaps)
    (a : Ann) (alt : String) (hne : a.hgvsp ≠ "")
    (hp : parseAlt a.hgvsp = some alt) :
    processAnn flirt mth vaf st a =
      Except.ok (applyTier st
        (classifyTier flirt mth a.feature (translateAA alt))
        (a.feature ++ ":" ++ translateAA alt) vaf) := by
  unfold parseAlt at hp
  unfold processAnn
  rw [if_neg hne]
  cases h1 : splitFirst ':' a.hgvsp with
  | none =>
    rw [h1] at hp
    exact Option.noConfusion hp
  | some pr1 =>
    obtain ⟨t, r⟩ := pr1
    simp only [h1] at hp ⊢
    cases h2 : splitFirst '.' r with
    | none =>
      rw [h2] at hp
      exact Option.noConfusion hp
    | some pr2 =>
      obtain ⟨pfx, raw⟩ := pr2
      simp only [h2, Option.some.injEq] at hp ⊢
      subst hp
      unfold classifyTier applyTier
      by_cases hc1 : translateAA raw ∈ getD flirt a.feature
      · simp [hc1]
      · by_cases hc2 : translateAA raw ∈ getD mth a.feature
        · simp [hc1, hc2]
        · simp [hc1, hc2]

theorem processAnn_ok_inv (flirt mth : RefMap) (vaf : ℚ) (st : TierMaps)
    (a : Ann) (st' : TierMaps) (hne : a.hgvsp ≠ "")
    (hok : processAnn flirt mth vaf st a = Except.ok st') :
    ∃ alt, parseAlt a.hgvsp = some alt := by
  unfold processAnn at hok
  rw [if_neg hne] at hok
  unfold parseAlt
  cases h1 : splitFirst ':' a.hgvsp with
  | none =>
    rw [h1] at hok
    exact Except.noConfusion hok
  | some pr1 =>
    obtain ⟨t, r⟩ := pr1
    simp only [h1] at hok ⊢
    cases h2 : splitFirst '.' r with
    | none =>
      rw [h2] at hok
      exact Except.noConfusion hok
    | some pr2 =>
      obtain ⟨pfx, raw⟩ := pr2
      simp only [h2]
      exact ⟨raw, rfl⟩

theorem splitOnce_append (f r : List Char) (sep : Char) (hf : sep ∉ f) :
    splitOnce sep (f ++ sep :: r) = some (f, r) := by
  induction f with
  | nil => simp [splitOnce]
  | cons c cs ih =>
    have hc : c ≠ sep := fun he => hf (he ▸ List.mem_cons_self c cs)
    have hcs : sep ∉ cs := fun hm => hf (List.mem_cons_of_mem c hm)
    simp [splitOnce, hc, ih hcs]

theorem splitFirst_label (f r : String) (hf : ':' ∉ f.data) :
    splitFirst ':' (f ++ ":" ++ r) = some (f, r) := by
  unfold splitFirst
  rw [show (f ++ ":" ++ r).data = f.data ++ ':' :: r.data by
    simp [String.data_append]]
  rw [splitOnce_append f.data r.data ':' hf]

theorem mem_keysOf (m : List (String × ℚ)) (L : String) :
    L ∈ keysOf m ↔ (lookupVaf m L).isSome := by
  induction m with
  | nil => simp [keysOf, lookupVaf]
  | cons p rest ih =>
    simp only [keysOf, List.map_cons, List.mem_cons] at ih ⊢
    by_cases hp : p.1 = L
    · simp [lookupVaf, hp]
    · simp [lookupVaf, hp, ih, show L ≠ p.1 from fun h => hp h.symm]

theorem keysOf_insert_entry (m : List (String × ℚ)) (k L : String) (v : ℚ)
    (hL : L ∈ keysOf (insert_entry m k v)) : L ∈ keysOf m ∨ L = k := by
  by_cases hk : L = k
  · exact Or.inr hk
  · left
    rw [mem_keysOf] at hL ⊢
    rw [lookupVaf_insert_other m k L v hk] at hL
    exact hL

theorem processAnn_preserves (flirt mth : RefMap) (vaf : ℚ) (st st' : TierMaps)
    (a : Ann) (hfeat : ':' ∉ a.feature.data)
    (hok : processAnn flirt mth vaf st a = Except.ok st')
    (hinv : TiersConsistent flirt mth st) : TiersConsistent flirt mth st' := by
  by_cases hne : a.hgvsp = ""
  · have hid : processAnn flirt mth vaf st a = Except.ok st := by
      simp [processAnn, hne]
    rw [hid] at hok
    injection hok with h
    exact h ▸ hinv
  · obtain ⟨alt, hp⟩ := processAnn_ok_inv flirt mth vaf st a st' hne hok
    rw [processAnn_ok_char flirt mth vaf st a alt hne hp] at hok
    injection hok with h
    subst h
    have hsplit : splitFirst ':' (a.feature ++ ":" ++ translateAA alt)
        = some (a.feature, translateAA alt) := splitFirst_label _ _ hfeat
    obtain ⟨h1, h2, h3⟩ := hinv
    cases hcl : classifyTier flirt mth a.feature (translateAA alt) with
    | flirt =>
      simp only [applyTier]
      refine ⟨?_, h2, h3⟩
      intro L hL
      rcases keysOf_insert_entry _ _ _ _ hL with hold | hnew
      · exact h1 L hold
      · subst hnew
        unfold tierOfLabel
        simp only [hsplit, hcl]
    | mth =>
      simp only [applyTier]
      refine ⟨h1, ?_, h3⟩
      intro L hL
      rcases keysOf_insert_entry _ _ _ _ hL with hold | hnew
      · exact h2 L hold
      · subst hnew
        unfold tierOfLabel
        simp only [hsplit, hcl]
    | other =>
      simp only [applyTier]
      refine ⟨h1, h2, ?_⟩
      intro L hL
      rcases keysOf_insert_entry _ _ _ _ hL with hold | hnew
      · exact h3 L hold
      · subst hnew
        unfold tierOfLabel
        simp only [hsplit, hcl]

theorem processAnns_preserves (flirt mth : RefMap) (vaf : ℚ) (anns : List Ann) :
    ∀ st st', (∀ a ∈ anns, ':' ∉ a.feature.data) →
      processAnns flirt mth vaf st anns = Except.ok st' →
      TiersConsistent flirt mth st → TiersConsistent flirt mth st' := by
  induction anns with
  | nil =>
    intro st st' _ hok hinv
    simp only [processAnns, Except.ok.injEq] at hok
    exact hok ▸ hinv
  | cons a rest ih =>
    intro st st' hfeat hok hinv
    simp only [processAnns] at hok
    cases hstep : processAnn flirt mth vaf st a with
    | error e =>
      rw [hstep] at hok
      exact Except.noConfusion hok
    | ok st1 =>
      rw [hstep] at hok
      have hinv1 := processAnn_preserves flirt mth vaf st st1 a
        (hfeat a (List.mem_cons_self a rest)) hstep hinv
      exact ih st1 st' (fun b hb => hfeat b (List.mem_cons_of_mem a hb)) hok hinv1

theorem processRecsFrom_preserves (flirt mth : RefMap) (recs : List VarRecord) :
    ∀ st st', (∀ r ∈ recs, ∀ a ∈ r.anns, ':' ∉ a.feature.data) →
      processRecsFrom flirt mth st recs = Except.ok st' →
      TiersConsistent flirt mth st → TiersConsistent flirt mth st' := by
  induction recs with
  | nil =>
    intro st st' _ hok hinv
    simp only [processRecsFrom, Except.ok.injEq] at hok
    exact hok ▸ hinv
  | cons r rest ih =>
    intro st st' hfeat hok hinv
    simp only [processRecsFrom] at hok
    cases hstep : processAnns flirt mth r.vaf st r.anns with
    | error e =>
      rw [hstep] at hok
      exact Except.noConfusion hok
    | ok st1 =>
      rw [hstep] at hok
      have hinv1 := processAnns_preserves flirt mth r.vaf r.anns st st1
        (hfeat r (List.mem_cons_self r rest)) hstep hinv
      exact ih st1 st' (fun q hq => hfeat q (List.mem_cons_of_mem r hq)) hok hinv1

theorem processAnn_congr (flirt mth : RefMap) (vaf : ℚ) (st : TierMaps)
    (a b : Ann) (h : sameExceptField6 a b) :
    processAnn flirt mth vaf st a = processAnn flirt mth vaf st b := by
  obtain ⟨hf, hh⟩ := h
  unfold processAnn
  rw [hf, hh]

theorem processAnns_congr (flirt mth : RefMap) (vaf : ℚ) (l1 l2 : List Ann)
    (h : List.Forall₂ sameExceptField6 l1 l2) :
    ∀ st, processAnns flirt mth vaf st l1 = processAnns flirt mth vaf st l2 := by
  induction h with
  | nil => intro st; rfl
  | @cons a b r1 r2 hab hrest ih =>
    intro st
    simp only [processAnns]
    rw [processAnn_congr flirt mth vaf st a b hab]
    cases processAnn flirt mth vaf st b with
    | error e => rfl
    | ok st1 => exact ih st1

theorem processRecsFrom_congr (flirt mth : RefMap) (recs1 recs2 : List VarRecord)
    (h : List.Forall₂ sameRecExceptField6 recs1 recs2) :
    ∀ st, processRecsFrom flirt mth st recs1 = processRecsFrom flirt mth st recs2 := by
  induction h with
  | nil => intro st; rfl
  | @cons r1 r2 t1 t2 hr hrest ih =>
    intro st
    simp only [processRecsFrom]
    rw [hr.1, processAnns_congr flirt mth r2.vaf r1.anns r2.anns hr.2 st]
    cases processAnns flirt mth r2.vaf st r2.anns with
    | error e => rfl
    | ok st1 => exact ih st1

/- ------------------------------------------------------------------ -/
/- Claim theorems.                                                     -/
/- ------------------------------------------------------------------ -/

/-- Claim C1, as amended: for every annotation with a non-empty, parseable
HGVS protein string, the three-letter to one-letter substitution is applied
FIRST, and reference-set membership (tier 1 then tier 2, keyed by the
annotation's feature) is tested against the POST-translation one-letter
alteration string; the same translated string also builds the display
label.  The claim's stated order (membership before translation) is refuted
by C1_counterexample. -/
theorem C1_membership_tested_after_translation (flirt mth : RefMap) (vaf : ℚ)
    (st : TierMaps) (a : Ann) (alt : String) (hne : a.hgvsp ≠ "")
    (hp : parseAlt a.hgvsp = some alt) :
    processAnn flirt mth vaf st a =
      Except.ok (applyTier st
        (classifyTier flirt mth a.feature (translateAA alt))
        (a.feature ++ ":" ++ translateAA alt) vaf) :=
  processAnn_ok_char flirt mth vaf st a alt hne hp

/-- Witness for C1: the concrete annotation feature S, HGVS T:p.Gly12Ala,
with tier-1 set containing G12A, instantiates the theorem. -/
theorem C1_membership_tested_after_translation_witness :
    processAnn [("S", ["G12A"])] [] 1 initialTiers ⟨"S", "E1", "T:p.Gly12Ala"⟩ =
      Except.ok (applyTier initialTiers
        (classifyTier [("S", ["G12A"])] [] "S" (translateAA "Gly12Ala"))
        ("S" ++ ":" ++ translateAA "Gly12Ala") 1) :=
  C1_membership_tested_after_translation [("S", ["G12A"])] [] 1 initialTiers
    ⟨"S", "E1", "T:p.Gly12Ala"⟩ "Gly12Ala" (by decide) (by decide)

/-- Counterexample to claim C1 as stated: the tier-1 reference set for
feature S holds the canonical three-letter form Gly12Ala, so under the claim
the annotation T:p.Gly12Ala must be classified tier 1; the code instead
translates first and tests G12A, which is not in the set, so the entry lands
in the other tier and the tier-1 dict stays empty. -/
theorem C1_counterexample :
    (getD [("S", ["Gly12Ala"])] "S").contains "Gly12Ala" = true ∧
    classifyTier [("S", ["Gly12Ala"])] [] "S" "Gly12Ala" = Tier.flirt ∧
    processAnn [("S", ["Gly12Ala"])] [] 1 initialTiers
        ⟨"S", "E1", "T:p.Gly12Ala"⟩ =
      Except.ok ⟨[], [], [("S:G12A", 1)]⟩ :=
  ⟨by decide, by decide, rfl⟩

/-- Claim C2, as amended: the tier formatter renders each entry as label
colon VAF with exactly three decimals and joins the rendered entries with
single spaces, sorted lexicographically by the WHOLE rendered entry string
(which agrees with by-label order except when one label is a strict prefix
of another at the rendered colon, see C2_counterexample); the empty mapping
yields the empty string, and the claim's example renders exactly as
stated. -/
theorem C2_formatter_sorted_rendering :
    fmt_variants [] = "" ∧
    fmt_variants [("ORF1a:G12A", (1 : ℚ) / 2), ("ORF1a:M1L", (1 : ℚ) / 4)] =
      "ORF1a:G12A:0.500 ORF1a:M1L:0.250" ∧
    ∀ variants : List (String × ℚ), ∃ l : List String,
      fmt_variants variants = String.intercalate " " l ∧
      List.Sorted (fun u v => strLtB v u = false) l ∧
      List.Perm l (variants.map renderEntry) := by
  refine ⟨rfl, ?_, ?_⟩
  · unfold fmt_variants
    simp only [List.map_cons, List.map_nil, renderEntry, fmt3_half, fmt3_quarter]
    rfl
  · intro variants
    exact ⟨sortStrings (variants.map renderEntry), rfl,
      sorted_sortStrings _, sortStrings_perm _⟩

/-- Counterexample to claim C2 as stated: with labels S:A1 and S:A12 the
code sorts the rendered strings, and the colon after A1 compares greater
than the digit 2, so the output is NOT in lexicographic label order. -/
theorem C2_counterexample :
    fmt_variants [("S:A1", (1 : ℚ) / 2), ("S:A12", (1 : ℚ) / 4)] =
      "S:A12:0.250 S:A1:0.500" ∧
    fmt_variants_byLabel [("S:A1", (1 : ℚ) / 2), ("S:A12", (1 : ℚ) / 4)] =
      "S:A1:0.500 S:A12:0.250" ∧
    fmt_variants [("S:A1", (1 : ℚ) / 2), ("S:A12", (1 : ℚ) / 4)] ≠
      fmt_variants_byLabel [("S:A1", (1 : ℚ) / 2), ("S:A12", (1 : ℚ) / 4)] := by
  have h1 : fmt_variants [("S:A1", (1 : ℚ) / 2), ("S:A12", (1 : ℚ) / 4)] =
      "S:A12:0.250 S:A1:0.500" := by
    unfold fmt_variants
    simp only [List.map_cons, List.map_nil, renderEntry, fmt3_half, fmt3_quarter]
    rfl
  have h2 : fmt_variants_byLabel [("S:A1", (1 : ℚ) / 2), ("S:A12", (1 : ℚ) / 4)] =
      "S:A1:0.500 S:A12:0.250" := by
    unfold fmt_variants_byLabel
    rw [show sortByLabel [("S:A1", (1 : ℚ) / 2), ("S:A12", (1 : ℚ) / 4)] =
      [("S:A1", (1 : ℚ) / 2), ("S:A12", (1 : ℚ) / 4)] from rfl]
    simp only [List.map_cons, List.map_nil, renderEntry, fmt3_half, fmt3_quarter]
    rfl
  refine ⟨h1, h2, ?_⟩
  rw [h1, h2]
  decide

/-- Claim C3: the overflow guard replaces a string in its entirety exactly
when its length exceeds 32767 characters, leaves any string of length at
most 32767 (hence one of length exactly 32767) untouched, and within the
per-sample output it is applied to the other tier's formatted string only:
the tier-1 and tier-2 summaries are emitted unguarded. -/
theorem C3_overflow_guard_other_only :
    (∀ s : String, 32767 < s.length →
      overflowGuard s = "Too many variants to display") ∧
    (∀ s : String, s.length ≤ 32767 → overflowGuard s = s) ∧
    (∀ (flirt mth : RefMap) (recs : List VarRecord) (st : TierMaps),
      processRecs flirt mth recs = Except.ok st →
      processSample flirt mth recs =
        Except.ok (fmt_variants st.flirt_mutations,
                   fmt_variants st.mutations_of_interest,
                   overflowGuard (fmt_variants st.other_mutations))) := by
  refine ⟨?_, ?_, ?_⟩
  · intro s h
    simp [overflowGuard, h]
  · intro s h
    simp [overflowGuard, Nat.not_lt.mpr h]
  · intro flirt mth recs st h
    simp [processSample, h, Except.map]

/-- Witness for C3: a 32768-character string is replaced, a 32767-character
string is untouched, and the empty sample yields the three unguarded and
guarded formatter outputs. -/
theorem C3_overflow_guard_other_only_witness :
    overflowGuard (String.mk (List.replicate 32768 'a')) =
      "Too many variants to display" ∧
    overflowGuard (String.mk (List.replicate 32767 'a')) =
      String.mk (List.replicate 32767 'a') ∧
    processSample [] [] [] =
      Except.ok (fmt_variants initialTiers.flirt_mutations,
                 fmt_variants initialTiers.mutations_of_interest,
                 overflowGuard (fmt_variants initialTiers.other_mutations)) := by
  refine ⟨?_, ?_, ?_⟩
  · refine C3_overflow_guard_other_only.1 _ ?_
    show 32767 < (List.replicate 32768 'a').length
    rw [List.length_replicate]
    omega
  · refine C3_overflow_guard_other_only.2.1 _ ?_
    show (List.replicate 32767 'a').length ≤ 32767
    rw [List.length_replicate]
  · exact C3_overflow_guard_other_only.2.2 [] [] [] initialTiers rfl

/-- Claim C4: building a tier map from empty by any sequence of insert_entry
calls, the VAF retained under a label is exactly the maximum of all VAFs
inserted under that label, never an average and never the first or the last
value observed. -/
theorem C4_dedup_keeps_max (entries : List (String × ℚ)) (L : String) :
    lookupVaf (foldInserts entries []) L =
      maxVaf ((entries.filter fun p => p.1 == L).map Prod.snd) := by
  rw [lookupVaf_foldInserts]
  rfl

/-- Claim C5, as amended: tier-1 membership is checked first with
short-circuit, so an alteration present in both reference sets for the same
feature is classified tier 1; and whenever no processed feature name
contains a colon (so distinct feature and alteration pairs always yield
distinct labels), the three per-sample tier maps are pairwise disjoint by
label.  Without that proviso two annotations can place one label in two
tiers, see C5_counterexample. -/
theorem C5_tier1_first_and_disjoint :
    (∀ (flirt mth : RefMap) (f alt : String),
      (getD flirt f).contains alt = true →
      classifyTier flirt mth f alt = Tier.flirt) ∧
    (∀ (flirt mth : RefMap) (recs : List VarRecord) (st : TierMaps),
      (∀ r ∈ recs, ∀ a ∈ r.anns, ':' ∉ a.feature.data) →
      processRecs flirt mth recs = Except.ok st →
      ∀ L : String,
        (L ∈ keysOf st.flirt_mutations →
          L ∉ keysOf st.mutations_of_interest ∧
          L ∉ keysOf st.other_mutations) ∧
        (L ∈ keysOf st.mutations_of_interest →
          L ∉ keysOf st.other_mutations)) := by
  constructor
  · intro flirt mth f alt h
    have h2 : alt ∈ getD flirt f := by simpa using h
    simp [classifyTier, h2]
  · intro flirt mth recs st hfeat hok L
    have hinit : TiersConsistent flirt mth initialTiers := by
      refine ⟨?_, ?_, ?_⟩ <;> intro L hL <;> simp [initialTiers, keysOf] at hL
    have hinv : TiersConsistent flirt mth st :=
      processRecsFrom_preserves flirt mth recs initialTiers st hfeat hok hinit
    obtain ⟨h1, h2, h3⟩ := hinv
    refine ⟨fun hf => ⟨fun hm => ?_, fun ho => ?_⟩, fun hm ho => ?_⟩
    · have hc := (h1 L hf).symm.trans (h2 L hm)
      simp at hc
    · have hc := (h1 L hf).symm.trans (h3 L ho)
      simp at hc
    · have hc := (h2 L hm).symm.trans (h3 L ho)
      simp at hc

/-- Witness for C5: a double-listed alteration classifies tier 1, and on a
concrete one-annotation sample the label of the tier-1 map is absent from
the other two maps. -/
theorem C5_tier1_first_and_disjoint_witness :
    classifyTier [("S", ["G12A"])] [("S", ["G12A"])] "S" "G12A" = Tier.flirt ∧
    "S:G12A" ∉ keysOf (TierMaps.mutations_of_interest
      ⟨[("S:G12A", (1 : ℚ))], [], []⟩) ∧
    "S:G12A" ∉ keysOf (TierMaps.other_mutations
      ⟨[("S:G12A", (1 : ℚ))], [], []⟩) := by
  have hfst := C5_tier1_first_and_disjoint.1 [("S", ["G12A"])]
    [("S", ["G12A"])] "S" "G12A" (by decide)
  have h := (C5_tier1_first_and_disjoint.2 [("S", ["G12A"])] []
    [⟨1, [⟨"S", "E1", "T:p.Gly12Ala"⟩]⟩] ⟨[("S:G12A", 1)], [], []⟩
    (by decide) rfl "S:G12A").1 (by decide)
  exact ⟨hfst, h.1, h.2⟩

/-- Counterexample to the disjointness part of claim C5 as stated: feature
A:B with alteration C and feature A with alteration B:C both produce the
label A:B:C; the first is classified tier 1, the second other, so the same
label is simultaneously a key of the tier-1 map and of the other map. -/
theorem C5_counterexample :
    processRecs [("A:B", ["C"])] []
        [⟨1, [⟨"A:B", "E1", "T:p.C"⟩, ⟨"A", "E2", "T:p.B:C"⟩]⟩] =
      Except.ok ⟨[("A:B:C", 1)], [], [("A:B:C", 1)]⟩ ∧
    "A:B:C" ∈ keysOf (TierMaps.flirt_mutations
      ⟨[("A:B:C", (1 : ℚ))], [], [("A:B:C", (1 : ℚ))]⟩) ∧
    "A:B:C" ∈ keysOf (TierMaps.other_mutations
      ⟨[("A:B:C", (1 : ℚ))], [], [("A:B:C", (1 : ℚ))]⟩) :=
  ⟨rfl, by decide, by decide⟩

/-- Claim C6, as amended: the translator applies the twenty replacements
sequentially in table order, each pass replacing every occurrence present
at that point, so a letter produced by an earlier pass can combine with the
following characters into a new code that a later pass also replaces
(see C6_counterexample); every single code translates to its one-letter
equivalent, and the claim's examples hold under both the sequential code
and the claim's simultaneous reading: Gly12Ala yields G12A and Met1Leu
yields M1L. -/
theorem C6_translator :
    translateAA "Gly12Ala" = "G12A" ∧
    translateAA "Met1Leu" = "M1L" ∧
    (AA_ALPHABET_TRANSLATION.all fun p => translateAA p.1 == p.2) = true ∧
    claimTranslateAA "Gly12Ala" = "G12A" ∧
    claimTranslateAA "Met1Leu" = "M1L" :=
  ⟨by decide, by decide, by decide, by decide, by decide⟩

/-- Counterexample to claim C6 as stated: in Alasn the only code occurrence
is Ala, so replacing every occurrence while leaving the other characters s
and n unchanged yields Asn; the sequential code instead first rewrites Ala
to A, which creates the new occurrence Asn that a later pass rewrites to N,
changing characters that belonged to no original occurrence. -/
theorem C6_counterexample :
    translateAA "Alasn" = "N" ∧
    claimTranslateAA "Alasn" = "Asn" ∧
    translateAA "Alasn" ≠ claimTranslateAA "Alasn" :=
  ⟨by decide, by decide, by decide⟩

/-- Claim C7: an annotation whose raw HGVS string is empty is silently
skipped: the loop body returns the state unchanged and raises no error, and
the annotation loop produces the same result with or without the skipped
annotation, wherever it occurs. -/
theorem C7_empty_hgvsp_skipped (flirt mth : RefMap) (vaf : ℚ) (st : TierMaps)
    (a : Ann) (h : a.hgvsp = "") :
    processAnn flirt mth vaf st a = Except.ok st ∧
    ∀ pre post : List Ann,
      processAnns flirt mth vaf st (pre ++ a :: post) =
        processAnns flirt mth vaf st (pre ++ post) := by
  have hstep : ∀ st2 : TierMaps, processAnn flirt mth vaf st2 a = Except.ok st2 := by
    intro st2
    simp [processAnn, h]
  refine ⟨hstep st, ?_⟩
  intro pre post
  rw [processAnns_append, processAnns_append]
  cases processAnns flirt mth vaf st pre with
  | error e => rfl
  | ok st1 => simp only [processAnns, hstep st1]

/-- Witness for C7: a concrete empty-HGVS annotation is skipped between two
processed annotations. -/
theorem C7_empty_hgvsp_skipped_witness :
    processAnn [] [] 1 initialTiers ⟨"S", "E1", ""⟩ = Except.ok initialTiers ∧
    processAnns [] [] 1 initialTiers
        ([⟨"G", "E2", "T:p.Met1Leu"⟩] ++ ⟨"S", "E1", ""⟩ ::
          [⟨"H", "E3", "T:p.Cys5Gly"⟩]) =
      processAnns [] [] 1 initialTiers
        ([⟨"G", "E2", "T:p.Met1Leu"⟩] ++ [⟨"H", "E3", "T:p.Cys5Gly"⟩]) := by
  have h := C7_empty_hgvsp_skipped [] [] 1 initialTiers ⟨"S", "E1", ""⟩ rfl
  exact ⟨h.1, h.2 [⟨"G", "E2", "T:p.Met1Leu"⟩] [⟨"H", "E3", "T:p.Cys5Gly"⟩]⟩

/-- Claim C8: a non-empty HGVS string with no colon, or whose post-colon
remainder has no dot, makes the two-name split unpacking fail: the loop
body returns an error carrying the offending string, the error aborts the
annotation loop wherever it occurs, and an errored sample produces no
output triple. -/
theorem C8_malformed_hgvsp_fatal :
    (∀ (flirt mth : RefMap) (vaf : ℚ) (st : TierMaps) (a : Ann),
      a.hgvsp ≠ "" → splitFirst ':' a.hgvsp = none →
      processAnn flirt mth vaf st a = Except.error a.hgvsp) ∧
    (∀ (flirt mth : RefMap) (vaf : ℚ) (st : TierMaps) (a : Ann) (t r : String),
      a.hgvsp ≠ "" → splitFirst ':' a.hgvsp = some (t, r) →
      splitFirst '.' r = none →
      processAnn flirt mth vaf st a = Except.error a.hgvsp) ∧
    (∀ (flirt mth : RefMap) (vaf : ℚ) (st st1 : TierMaps)
        (pre post : List Ann) (a : Ann) (e : String),
      processAnns flirt mth vaf st pre = Except.ok st1 →
      processAnn flirt mth vaf st1 a = Except.error e →
      processAnns flirt mth vaf st (pre ++ a :: post) = Except.error e) ∧
    (∀ (flirt mth : RefMap) (recs : List VarRecord) (e : String),
      processRecs flirt mth recs = Except.error e →
      processSample flirt mth recs = Except.error e) := by
  refine ⟨?_, ?_, ?_, ?_⟩
  · intro flirt mth vaf st a hne hsplit
    unfold processAnn
    rw [if_neg hne, hsplit]
  · intro flirt mth vaf st a t r hne hsplit1 hsplit2
    unfold processAnn
    rw [if_neg hne]
    simp only [hsplit1, hsplit2]
  · intro flirt mth vaf st st1 pre post a e hpre hstep
    rw [processAnns_append, hpre]
    simp only [processAnns, hstep]
  · intro flirt mth recs e h
    simp [processSample, h, Except.map]

/-- Witness for C8: concrete malformed strings nocolon and T:nodot error,
the error aborts a longer annotation list, and the sample output is the
error. -/
theorem C8_malformed_hgvsp_fatal_witness :
    processAnn [] [] 1 initialTiers ⟨"S", "E1", "nocolon"⟩ =
      Except.error "nocolon" ∧
    processAnn [] [] 1 initialTiers ⟨"S", "E1", "T:nodot"⟩ =
      Except.error "T:nodot" ∧
    processAnns [] [] 1 initialTiers
        ([] ++ ⟨"S", "E1", "nocolon"⟩ :: [⟨"G", "E2", "T:p.Met1Leu"⟩]) =
      Except.error "nocolon" ∧
    processSample [] [] [⟨1, [⟨"S", "E1", "nocolon"⟩]⟩] =
      Except.error "nocolon" := by
  have h1 := C8_malformed_hgvsp_fatal.1 [] [] 1 initialTiers
    ⟨"S", "E1", "nocolon"⟩ (by decide) (by decide)
  have h2 := C8_malformed_hgvsp_fatal.2.1 [] [] 1 initialTiers
    ⟨"S", "E1", "T:nodot"⟩ "T" "nodot" (by decide) (by decide) (by decide)
  have h3 := C8_malformed_hgvsp_fatal.2.2.1 [] [] 1 initialTiers initialTiers
    [] [⟨"G", "E2", "T:p.Met1Leu"⟩] ⟨"S", "E1", "nocolon"⟩ "nocolon" rfl h1
  have h4 := C8_malformed_hgvsp_fatal.2.2.2 [] []
    [⟨1, [⟨"S", "E1", "nocolon"⟩]⟩] "nocolon" rfl
  exact ⟨h1, h2, h3, h4⟩

theorem getD_eq_nil (m : RefMap) (f : String) :
    f ∉ m.map Prod.fst → getD m f = [] := by
  induction m with
  | nil => intro _; rfl
  | cons p rest ih =>
    intro h
    have hp : p.1 ≠ f := fun he => h (by simp [he])
    have hrest : f ∉ rest.map Prod.fst := fun hm =>
      h (List.mem_cons_of_mem p.1 hm)
    simp only [getD, List.find?]
    rw [show (p.1 == f) = false by simp [hp]]
    simpa [getD] using ih hrest

/-- Claim C9: a feature absent from a reference mapping looks up to the
empty set and never raises, so an alteration whose feature appears in
neither mapping is routed to the other tier. -/
theorem C9_unknown_feature_other (flirt mth : RefMap) (f alt : String)
    (h1 : f ∉ flirt.map Prod.fst) (h2 : f ∉ mth.map Prod.fst) :
    getD flirt f = [] ∧ getD mth f = [] ∧
    classifyTier flirt mth f alt = Tier.other := by
  have g1 := getD_eq_nil flirt f h1
  have g2 := getD_eq_nil mth f h2
  refine ⟨g1, g2, ?_⟩
  simp [classifyTier, g1, g2]

/-- Witness for C9: feature S is absent from both concrete mappings and the
alteration is classified other. -/
theorem C9_unknown_feature_other_witness :
    getD [("X", ["A"])] "S" = [] ∧ getD ([] : RefMap) "S" = [] ∧
    classifyTier [("X", ["A"])] [] "S" "G12A" = Tier.other :=
  C9_unknown_feature_other [("X", ["A"])] [] "S" "G12A" (by decide) (by decide)

/-- Claim C10: the per-sample outputs are independent of annotation field 6,
the transcript identifier: two record lists agreeing on VAFs, features and
HGVS strings while differing arbitrarily in field 6 produce identical
tier-1, tier-2 and other summary strings. -/
theorem C10_independent_of_field6 (flirt mth : RefMap)
    (recs1 recs2 : List VarRecord)
    (h : List.Forall₂ sameRecExceptField6 recs1 recs2) :
    processSample flirt mth recs1 = processSample flirt mth recs2 := by
  unfold processSample processRecs
  rw [processRecsFrom_congr flirt mth recs1 recs2 h initialTiers]

/-- Witness for C10: changing only the transcript identifier of a concrete
annotation leaves the sample output unchanged. -/
theorem C10_independent_of_field6_witness :
    processSample [("S", ["G12A"])] []
        [⟨1, [⟨"S", "ENSSAST001", "T:p.Gly12Ala"⟩]⟩] =
      processSample [("S", ["G12A"])] []
        [⟨1, [⟨"S", "OTHER-ID", "T:p.Gly12Ala"⟩]⟩] :=
  C10_independent_of_field6 [("S", ["G12A"])] [] _ _
    (List.Forall₂.cons ⟨rfl, List.Forall₂.cons ⟨rfl, rfl⟩ List.Forall₂.nil⟩
      List.Forall₂.nil)
